import Mathlib

/-!
Shallow embedding of the Ledger Merge Protocol
(`python_runtime/src/merge_operator.py`) and of the identifier
sanitization used by the ledger sealing service
(`python_runtime/ledger_seal.py`), with theorems checking the
specification's testable properties against this embedding.

Timestamps: the Python code stamps each `QuarantineRecord` with
`datetime.datetime.now()`.  We model the ambient clock as an explicit
`now : String` argument threaded into `merge`, so that determinism
modulo timestamps can be stated.
-/

namespace GeminiLedger

/-- `MergeOutcome` enum from merge_operator.py. -/
inductive MergeOutcome where
  | FAST_FORWARD_APPEND
  | REBASE_APPEND
  | QUARANTINE
deriving DecidableEq, Repr

/-- `AttestationType.SHA256.value` from merge_operator.py. -/
def AttestationType.SHA256 : String := "SHA256"

/-- `AttestationType.ML_DSA_65.value` from merge_operator.py. -/
def AttestationType.ML_DSA_65 : String := "ML-DSA-65"

/-- `BranchEvent` model: a single atomic transition in the branch.
The Python `signatures` dict is modelled as an association list of
(attestation-kind, signature-string) pairs; the code only ever queries
key membership. -/
structure BranchEvent where
  prev_hash : String
  state_hash : String
  payload_hash : String
  timestamp_utc : String
  monotonic_counter : Nat
  signatures : List (String × String)
deriving DecidableEq, Repr

/-- `BranchEvent.verify_signatures`: both required attestation kinds must
be keys of the `signatures` map (presence only, no cryptography). -/
def BranchEvent.verify_signatures (e : BranchEvent) : Bool :=
  decide (AttestationType.SHA256 ∈ e.signatures.map Prod.fst) &&
  decide (AttestationType.ML_DSA_65 ∈ e.signatures.map Prod.fst)

/-- `LedgerHead`: the current tip of the ledger. -/
structure LedgerHead where
  head_hash : String
  height : Nat
deriving DecidableEq, Repr

/-- `BranchChain`: a sequence of events proposing to merge. -/
structure BranchChain where
  events : List BranchEvent
  branch_id : String
deriving DecidableEq, Repr

/-- `QuarantineRecord`: the permanent record of a failed merge attempt. -/
structure QuarantineRecord where
  reason_code : String
  branch_id : String
  failed_at_height : Nat
  culprit_event_hash : Option String
  timestamp : String
deriving DecidableEq, Repr

/-- `RebaseReceipt`: declared artifact type for a successful rebase. -/
structure RebaseReceipt where
  original_head : String
  new_head : String
  delta_events : Nat
  contractivity_check : Bool
deriving DecidableEq, Repr

/-- The artifact slot of `merge`'s return value (`Any` in the Python
signature: `RebaseReceipt` or `QuarantineRecord` or `None`). -/
inductive MergeArtifact where
  | none
  | quarantine (q : QuarantineRecord)
  | rebase (r : RebaseReceipt)
deriving DecidableEq, Repr

/-- The two failure kinds of the first `for` loop of `merge`
(signature gate and chain-continuity check). -/
inductive ChainFailure where
  | missingSig
  | brokenLink
deriving DecidableEq, Repr

/-- The first `for` loop of `merge`: scans events left to right carrying
the previous event (`None` before index 0).  For each event the signature
check runs first; then, when a predecessor exists, the continuity check
`event.prev_hash == prev_event.state_hash`.  Returns the first failure
together with the offending event, or `none` when the whole branch
passes. -/
def chainCheckFrom : Option BranchEvent → List BranchEvent → Option (ChainFailure × BranchEvent)
  | _, [] => Option.none
  | prev, e :: rest =>
    if e.verify_signatures = false then some (ChainFailure.missingSig, e)
    else
      match prev with
      | some p =>
        if e.prev_hash = p.state_hash then chainCheckFrom (some e) rest
        else some (ChainFailure.brokenLink, e)
      | Option.none => chainCheckFrom (some e) rest

/-- The second `for` loop of `merge` (fast-forward eligibility): each
event's counter must equal `ledger_head.height + 1 + i`.  Returns the
first deviating event, or `none`.  `i` is the running index. -/
def monotonicityCheck (base : Nat) : Nat → List BranchEvent → Option BranchEvent
  | _, [] => Option.none
  | i, e :: rest =>
    if e.monotonic_counter = base + 1 + i then monotonicityCheck base (i + 1) rest
    else some e

/-- `MergeOperator.merge`: the deterministic state machine that decides
Append or Quarantine, returning `(outcome, artifact)`.  `now` models the
wall clock read by `QuarantineRecord`'s default timestamp factory. -/
def MergeOperator.merge (branch : BranchChain) (ledger_head : LedgerHead) (now : String) :
    MergeOutcome × MergeArtifact :=
  match branch.events with
  | [] =>
    (MergeOutcome.QUARANTINE, MergeArtifact.quarantine
      ⟨"EMPTY_BRANCH", branch.branch_id, ledger_head.height, Option.none, now⟩)
  | first_event :: _ =>
    match chainCheckFrom Option.none branch.events with
    | some (ChainFailure.missingSig, e) =>
      (MergeOutcome.QUARANTINE, MergeArtifact.quarantine
        ⟨"MISSING_PQ_SIGNATURE", branch.branch_id, e.monotonic_counter, some e.state_hash, now⟩)
    | some (ChainFailure.brokenLink, e) =>
      (MergeOutcome.QUARANTINE, MergeArtifact.quarantine
        ⟨"BROKEN_CHAIN_LINK", branch.branch_id, e.monotonic_counter, some e.state_hash, now⟩)
    | Option.none =>
      if first_event.prev_hash = ledger_head.head_hash then
        if first_event.monotonic_counter = ledger_head.height + 1 then
          match monotonicityCheck ledger_head.height 0 branch.events with
          | some e =>
            (MergeOutcome.QUARANTINE, MergeArtifact.quarantine
              ⟨"MONOTONICITY_FAILURE", branch.branch_id, e.monotonic_counter,
               some e.state_hash, now⟩)
          | Option.none => (MergeOutcome.FAST_FORWARD_APPEND, MergeArtifact.none)
        else
          (MergeOutcome.QUARANTINE, MergeArtifact.quarantine
            ⟨"HEIGHT_MISMATCH_DESPITE_HASH_MATCH", branch.branch_id,
             first_event.monotonic_counter, some first_event.state_hash, now⟩)
      else if first_event.monotonic_counter ≤ ledger_head.height then
        (MergeOutcome.QUARANTINE, MergeArtifact.quarantine
          ⟨"FALSE_ZERO_FORK_DETECTED", branch.branch_id,
           first_event.monotonic_counter, some first_event.state_hash, now⟩)
      else
        (MergeOutcome.QUARANTINE, MergeArtifact.quarantine
          ⟨"DETACHED_BRANCH_REBASE_REQUIRED", branch.branch_id,
           first_event.monotonic_counter, some first_event.state_hash, now⟩)

/-- The predecessor consulted by `merge`'s first loop for index `i` of
list `l` when the loop was entered with previous event `p`: `p` itself
at index 0, and `l[i-1]` afterwards. -/
def prevOf (p : Option BranchEvent) (l : List BranchEvent) (i : Nat) : Option BranchEvent :=
  if i = 0 then p else l[i - 1]?

/-- `badRel p l i` holds when the first loop of `merge`, entered with
previous event `p`, fails at index `i` of `l`: the event at `i` is
missing a required attestation kind, or its `prev_hash` differs from its
predecessor's `state_hash`. -/
def badRel (p : Option BranchEvent) (l : List BranchEvent) (i : Nat) : Bool :=
  match l[i]? with
  | Option.none => false
  | some e =>
    !e.verify_signatures ||
      (match prevOf p l i with
       | some q => decide (e.prev_hash ≠ q.state_hash)
       | Option.none => false)

/-- Character class of the sanitizer's regex `[^a-zA-Z0-9-_]` in
ledger_seal.py: `isSafeChar c` holds for exactly the characters the
regex leaves untouched. -/
def isSafeChar (c : Char) : Bool :=
  (decide ('a' ≤ c) && decide (c ≤ 'z')) ||
  (decide ('A' ≤ c) && decide (c ≤ 'Z')) ||
  (decide ('0' ≤ c) && decide (c ≤ '9')) ||
  c = '-' || c = '_'

/-- The underscore character, the sanitizer's replacement separator. -/
def underscore : Char := '_'

/-- `re.sub(r'[^a-zA-Z0-9-_]', '_', job_id)`: replace each unsafe
character with an underscore. -/
def replaceUnsafe (l : List Char) : List Char :=
  l.map fun c => if isSafeChar c then c else underscore

/-- `re.sub(r'_+', '_', safe_id)`: collapse each run of underscores to a
single underscore. -/
def collapseUnderscores : List Char → List Char
  | [] => []
  | [c] => [c]
  | c :: d :: rest =>
    if c = underscore ∧ d = underscore then collapseUnderscores (d :: rest)
    else c :: collapseUnderscores (d :: rest)

/-- Leading half of Python's `str.strip('_')`: drop leading underscores. -/
def stripLeading (l : List Char) : List Char :=
  l.dropWhile fun c => c = underscore

/-- Trailing half of Python's `str.strip('_')`: drop the maximal run of
trailing underscores. -/
def stripTrailing : List Char → List Char
  | [] => []
  | c :: rest =>
    match stripTrailing rest with
    | [] => if c = underscore then [] else [c]
    | d :: t => c :: d :: t

/-- `sanitize_job_id` from ledger_seal.py: replace unsafe characters
with `_`, collapse repeated underscores, strip leading/trailing
underscores.  The Python early return on a falsy (empty) input returns
`""`, which coincides with the pipeline's value on `""`. -/
def sanitize_job_id (s : String) : String :=
  ⟨stripTrailing (stripLeading (collapseUnderscores (replaceUnsafe s.data)))⟩

/-- The quarantine branch of `seal_ledger` (ledger_seal.py lines 48-55):
the identifier used to build the quarantine file name is the sanitized
`branch_id`, with the fixed fallback token `"UNKNOWN_BRANCH"` when
sanitization produced the empty string. -/
def quarantineSealId (branch_id : String) : String :=
  let safe_id := sanitize_job_id branch_id
  if safe_id = "" then "UNKNOWN_BRANCH" else safe_id

/-- No two adjacent underscores anywhere in the list. -/
def noAdjacentUnderscores : List Char → Bool
  | [] => true
  | [_] => true
  | c :: d :: rest => !(c = underscore && d = underscore) && noAdjacentUnderscores (d :: rest)

lemma badRel_nil (p : Option BranchEvent) (i : Nat) : badRel p [] i = false := by
  simp [badRel]

lemma badRel_succ (p : Option BranchEvent) (e : BranchEvent) (l : List BranchEvent) (j : Nat) :
    badRel p (e :: l) (j + 1) = badRel (some e) l j := by
  cases j with
  | zero => simp [badRel, prevOf]
  | succ k => simp [badRel, prevOf]

lemma badRel_zero (p : Option BranchEvent) (e : BranchEvent) (l : List BranchEvent) :
    badRel p (e :: l) 0 =
      (!e.verify_signatures ||
        match p with
        | some q => decide (e.prev_hash ≠ q.state_hash)
        | Option.none => false) := by
  simp [badRel, prevOf]

/-- If no index fails, the first loop of `merge` reports no failure. -/
lemma chainCheckFrom_eq_none (l : List BranchEvent) :
    ∀ p : Option BranchEvent, (∀ i, badRel p l i = false) → chainCheckFrom p l = Option.none := by
  induction l with
  | nil => intro p _; rfl
  | cons e rest ih =>
    intro p h
    have h0 := h 0
    rw [badRel_zero] at h0
    have hrest : ∀ i, badRel (some e) rest i = false := by
      intro i; rw [← badRel_succ p e rest i]; exact h (i + 1)
    cases hv : e.verify_signatures with
    | false => rw [hv] at h0; simp at h0
    | true =>
      cases p with
      | none => simpa [chainCheckFrom, hv] using ih (some e) hrest
      | some q =>
        rw [hv] at h0
        simp at h0
        simpa [chainCheckFrom, hv, h0] using ih (some e) hrest

/-- The first loop of `merge` reports exactly the least failing index:
missing-signature when that event's attestation check fails (taking
precedence), broken-link otherwise. -/
lemma chainCheckFrom_first (l : List BranchEvent) :
    ∀ (p : Option BranchEvent) (i : Nat), badRel p l i = true →
      (∀ j, j < i → badRel p l j = false) →
      ∃ hi : i < l.length,
        chainCheckFrom p l =
          some (if l[i].verify_signatures then ChainFailure.brokenLink
                else ChainFailure.missingSig, l[i]) := by
  induction l with
  | nil => intro p i hbad _; rw [badRel_nil] at hbad; cases hbad
  | cons e rest ih =>
    intro p i hbad hmin
    cases i with
    | zero =>
      refine ⟨by simp, ?_⟩
      rw [badRel_zero] at hbad
      cases hv : e.verify_signatures with
      | false => simp [chainCheckFrom, hv]
      | true =>
        rw [hv] at hbad
        cases p with
        | none => simp at hbad
        | some q =>
          simp at hbad
          simp [chainCheckFrom, hv, hbad]
    | succ j =>
      have h0 := hmin 0 (Nat.succ_pos j)
      rw [badRel_zero] at h0
      obtain ⟨hj, heq⟩ := ih (some e) j (by rw [← badRel_succ p e rest j]; exact hbad)
        (fun k hk => by rw [← badRel_succ p e rest k]; exact hmin (k + 1) (Nat.succ_lt_succ hk))
      refine ⟨Nat.succ_lt_succ hj, ?_⟩
      cases hv : e.verify_signatures with
      | false => rw [hv] at h0; simp at h0
      | true =>
        rw [hv] at h0
        cases p with
        | none => simpa [chainCheckFrom, hv] using heq
        | some q =>
          simp at h0
          simpa [chainCheckFrom, hv, h0] using heq

/-- Any event reported by the first loop belongs to the scanned list. -/
lemma chainCheckFrom_mem (l : List BranchEvent) :
    ∀ (p : Option BranchEvent) (k : ChainFailure) (e : BranchEvent),
      chainCheckFrom p l = some (k, e) → e ∈ l := by
  induction l with
  | nil => intro p k e h; cases h
  | cons a rest ih =>
    intro p k e h
    by_cases hv : a.verify_signatures = false
    · simp only [chainCheckFrom, if_pos hv, Option.some.injEq, Prod.mk.injEq] at h
      rw [← h.2]
      exact List.mem_cons_self a rest
    · cases p with
      | none =>
        simp only [chainCheckFrom, if_neg hv] at h
        exact List.mem_cons_of_mem a (ih _ _ _ h)
      | some q =>
        by_cases hc : a.prev_hash = q.state_hash
        · simp only [chainCheckFrom, if_neg hv, if_pos hc] at h
          exact List.mem_cons_of_mem a (ih _ _ _ h)
        · simp only [chainCheckFrom, if_neg hv, if_neg hc, Option.some.injEq,
            Prod.mk.injEq] at h
          rw [← h.2]
          exact List.mem_cons_self a rest

/-- If every counter matches the expected run, the second loop of
`merge` reports no failure. -/
lemma monotonicityCheck_eq_none (base : Nat) (l : List BranchEvent) :
    ∀ k : Nat, (∀ i, (hi : i < l.length) → l[i].monotonic_counter = base + 1 + (k + i)) →
      monotonicityCheck base k l = Option.none := by
  induction l with
  | nil => intro k _; rfl
  | cons e rest ih =>
    intro k h
    have h0 := h 0 (by simp)
    simp at h0
    unfold monotonicityCheck
    rw [if_pos (by omega)]
    exact ih (k + 1) fun i hi => by
      have hs := h (i + 1) (by simpa using Nat.succ_lt_succ hi)
      simp at hs
      omega

/-- The second loop of `merge` reports exactly the first deviating
event of the counter run. -/
lemma monotonicityCheck_first (base : Nat) (l : List BranchEvent) :
    ∀ (k i : Nat) (hi : i < l.length),
      l[i].monotonic_counter ≠ base + 1 + (k + i) →
      (∀ j, (hj : j < l.length) → j < i → l[j].monotonic_counter = base + 1 + (k + j)) →
      monotonicityCheck base k l = some l[i] := by
  induction l with
  | nil => intro k i hi; exact absurd hi (Nat.not_lt_zero i)
  | cons e rest ih =>
    intro k i hi hdev hmin
    cases i with
    | zero =>
      simp only [List.getElem_cons_zero] at hdev ⊢
      unfold monotonicityCheck
      rw [if_neg (by omega)]
    | succ j =>
      have h0 := hmin 0 (by simp) (Nat.succ_pos j)
      simp only [List.getElem_cons_zero] at h0
      have hj : j < rest.length := Nat.lt_of_succ_lt_succ hi
      simp only [List.getElem_cons_succ] at hdev ⊢
      unfold monotonicityCheck
      rw [if_pos (by omega)]
      exact ih (k + 1) j hj (by omega) fun m hm hmi => by
        have hs := hmin (m + 1) (Nat.succ_lt_succ hm) (Nat.succ_lt_succ hmi)
        simp only [List.getElem_cons_succ] at hs
        omega

/-- Any event reported by the second loop belongs to the scanned list. -/
lemma monotonicityCheck_mem (base : Nat) (l : List BranchEvent) :
    ∀ (k : Nat) (e : BranchEvent), monotonicityCheck base k l = some e → e ∈ l := by
  induction l with
  | nil => intro k e h; cases h
  | cons a rest ih =>
    intro k e h
    unfold monotonicityCheck at h
    by_cases hc : a.monotonic_counter = base + 1 + k
    · rw [if_pos hc] at h
      exact List.mem_cons_of_mem a (ih _ _ h)
    · rw [if_neg hc] at h
      simp only [Option.some.injEq] at h
      rw [← h]
      exact List.mem_cons_self a rest

/-- Presence of both attestation kinds is exactly what
`verify_signatures` checks. -/
lemma verify_of_kinds (e : BranchEvent)
    (h1 : AttestationType.SHA256 ∈ e.signatures.map Prod.fst)
    (h2 : AttestationType.ML_DSA_65 ∈ e.signatures.map Prod.fst) :
    e.verify_signatures = true := by
  simp [BranchEvent.verify_signatures, h1, h2]

/-- A branch whose events all verify and whose adjacent hash links are
intact passes the first loop of `merge`. -/
lemma chainCheckFrom_eq_none_of_valid (events : List BranchEvent)
    (hsig : ∀ e ∈ events, e.verify_signatures = true)
    (hchain : ∀ i, (hi : i < events.length) → 0 < i →
      events[i].prev_hash = events[i - 1].state_hash) :
    chainCheckFrom Option.none events = Option.none := by
  apply chainCheckFrom_eq_none
  intro i
  by_cases hi : i < events.length
  · have hv := hsig events[i] (events.getElem_mem hi)
    unfold badRel prevOf
    rw [List.getElem?_eq_getElem hi]
    rcases Nat.eq_zero_or_pos i with hz | hp
    · subst hz
      simp [hv]
    · rw [if_neg (by omega),
        List.getElem?_eq_getElem (show i - 1 < events.length by omega)]
      simp [hv, hchain i hi hp]
  · unfold badRel
    rw [List.getElem?_eq_none (by omega)]

/-- C1.  Fast-forward exactness: a non-empty branch whose events all
carry both required attestation kinds, whose first event extends the
head's hash, whose hash links are intact, and whose counters form the
exact run `head.height + 1 .. head.height + len`, merges as
`FAST_FORWARD_APPEND` with artifact `None`. -/
theorem merge_fast_forward_exact
    (branch : BranchChain) (head : LedgerHead) (now : String)
    (h0 : 0 < branch.events.length)
    (hsig : ∀ e ∈ branch.events,
      AttestationType.SHA256 ∈ e.signatures.map Prod.fst ∧
      AttestationType.ML_DSA_65 ∈ e.signatures.map Prod.fst)
    (hfirst : branch.events[0].prev_hash = head.head_hash)
    (hchain : ∀ i, (hi : i < branch.events.length) → 0 < i →
      branch.events[i].prev_hash = branch.events[i - 1].state_hash)
    (hrun : ∀ i, (hi : i < branch.events.length) →
      branch.events[i].monotonic_counter = head.height + 1 + i) :
    MergeOperator.merge branch head now =
      (MergeOutcome.FAST_FORWARD_APPEND, MergeArtifact.none) := by
  obtain ⟨events, bid⟩ := branch
  have hcc := chainCheckFrom_eq_none_of_valid events
    (fun e he => verify_of_kinds e (hsig e he).1 (hsig e he).2) hchain
  have hmono := monotonicityCheck_eq_none head.height events 0
    (fun i hi => by simpa using hrun i hi)
  cases events with
  | nil => exact absurd h0 (by simp)
  | cons e rest =>
    simp only [List.getElem_cons_zero] at hfirst
    have hcount := hrun 0 h0
    simp only [List.getElem_cons_zero] at hcount
    simp [MergeOperator.merge, hcc, hmono, hfirst, hcount]

/-- C2.  First-failure attribution with per-event check ordering: if `i`
is the least index at which either per-event check fails (missing
attestation kind, or — for `i > 0` — a broken hash link to the
predecessor), `merge` quarantines with `MISSING_PQ_SIGNATURE` when the
event at `i` is missing a kind (signature check takes precedence) and
`BROKEN_CHAIN_LINK` otherwise, attributing `failed_at_height` and
`culprit_event_hash` to the event at `i`. -/
theorem merge_first_failure_attribution
    (branch : BranchChain) (head : LedgerHead) (now : String) (i : Nat)
    (hi : i < branch.events.length)
    (hbad : badRel Option.none branch.events i = true)
    (hmin : ∀ j, j < i → badRel Option.none branch.events j = false) :
    MergeOperator.merge branch head now =
      (MergeOutcome.QUARANTINE, MergeArtifact.quarantine
        ⟨if branch.events[i].verify_signatures then "BROKEN_CHAIN_LINK"
          else "MISSING_PQ_SIGNATURE",
         branch.branch_id, branch.events[i].monotonic_counter,
         some branch.events[i].state_hash, now⟩) := by
  obtain ⟨events, bid⟩ := branch
  obtain ⟨hi2, hcc⟩ := chainCheckFrom_first events Option.none i hbad hmin
  cases events with
  | nil => exact absurd hi (by simp)
  | cons e rest =>
    cases hv : (e :: rest)[i].verify_signatures with
    | false =>
      simp only [hv, Bool.false_eq_true, if_false] at hcc ⊢
      simp [MergeOperator.merge, hcc]
    | true =>
      simp only [hv, if_true] at hcc ⊢
      simp [MergeOperator.merge, hcc]

/-- `merge` only ever returns a fast-forward with no artifact or a
quarantine with a quarantine record: no path yields `REBASE_APPEND` or a
`RebaseReceipt`. -/
lemma merge_no_rebase_artifact (branch : BranchChain) (head : LedgerHead) (now : String) :
    (MergeOperator.merge branch head now).1 ≠ MergeOutcome.REBASE_APPEND ∧
    ∀ r : RebaseReceipt, (MergeOperator.merge branch head now).2 ≠ MergeArtifact.rebase r := by
  obtain ⟨events, bid⟩ := branch
  cases events with
  | nil => simp [MergeOperator.merge]
  | cons e rest =>
    simp only [MergeOperator.merge]
    cases hcc : chainCheckFrom Option.none (e :: rest) with
    | some pr =>
      obtain ⟨k, ev⟩ := pr
      cases k <;> simp
    | none =>
      by_cases h1 : e.prev_hash = head.head_hash
      · by_cases h2 : e.monotonic_counter = head.height + 1
        · cases hm : monotonicityCheck head.height 0 (e :: rest) with
          | some ev => simp [h1, h2, hm]
          | none => simp [h1, h2, hm]
        · simp [h1, h2]
      · by_cases h3 : e.monotonic_counter ≤ head.height
        · simp [h1, h3]
        · simp [h1, h3]

/-- C3.  Unimplemented rebase path: `merge` never returns
`REBASE_APPEND` and never produces a `RebaseReceipt`; a structurally
valid non-empty branch whose first event neither chains from the head
nor starts at or below its height is quarantined as
`DETACHED_BRANCH_REBASE_REQUIRED`, attributed to the first event. -/
theorem merge_unimplemented_rebase (branch : BranchChain) (head : LedgerHead) (now : String) :
    ((MergeOperator.merge branch head now).1 ≠ MergeOutcome.REBASE_APPEND ∧
      ∀ r : RebaseReceipt, (MergeOperator.merge branch head now).2 ≠ MergeArtifact.rebase r) ∧
    (∀ h0 : 0 < branch.events.length,
      (∀ e ∈ branch.events,
        AttestationType.SHA256 ∈ e.signatures.map Prod.fst ∧
        AttestationType.ML_DSA_65 ∈ e.signatures.map Prod.fst) →
      (∀ i, (hi : i < branch.events.length) → 0 < i →
        branch.events[i].prev_hash = branch.events[i - 1].state_hash) →
      branch.events[0].prev_hash ≠ head.head_hash →
      head.height < branch.events[0].monotonic_counter →
      MergeOperator.merge branch head now =
        (MergeOutcome.QUARANTINE, MergeArtifact.quarantine
          ⟨"DETACHED_BRANCH_REBASE_REQUIRED", branch.branch_id,
           branch.events[0].monotonic_counter,
           some branch.events[0].state_hash, now⟩)) := by
  refine ⟨merge_no_rebase_artifact branch head now, ?_⟩
  intro h0 hsig hchain hfirst hgt
  obtain ⟨events, bid⟩ := branch
  have hcc := chainCheckFrom_eq_none_of_valid events
    (fun e he => verify_of_kinds e (hsig e he).1 (hsig e he).2) hchain
  cases events with
  | nil => exact absurd h0 (by simp)
  | cons e rest =>
    simp only [List.getElem_cons_zero] at hfirst hgt ⊢
    simp [MergeOperator.merge, hcc, hfirst, show ¬e.monotonic_counter ≤ head.height by omega]

/-- C4.  Monotonicity failure on fast-forward candidates: for a
structurally valid branch whose first event extends the head with the
expected counter, the first index `k` whose counter deviates from the
run `head.height + 1 + k` is quarantined as `MONOTONICITY_FAILURE`,
attributed to the event at `k`. -/
theorem merge_monotonicity_failure
    (branch : BranchChain) (head : LedgerHead) (now : String) (k : Nat)
    (h0 : 0 < branch.events.length)
    (hsig : ∀ e ∈ branch.events,
      AttestationType.SHA256 ∈ e.signatures.map Prod.fst ∧
      AttestationType.ML_DSA_65 ∈ e.signatures.map Prod.fst)
    (hchain : ∀ i, (hi : i < branch.events.length) → 0 < i →
      branch.events[i].prev_hash = branch.events[i - 1].state_hash)
    (hfirst : branch.events[0].prev_hash = head.head_hash)
    (hc1 : branch.events[0].monotonic_counter = head.height + 1)
    (hk : k < branch.events.length)
    (hdev : branch.events[k].monotonic_counter ≠ head.height + 1 + k)
    (hmin : ∀ j, (hj : j < branch.events.length) → j < k →
      branch.events[j].monotonic_counter = head.height + 1 + j) :
    MergeOperator.merge branch head now =
      (MergeOutcome.QUARANTINE, MergeArtifact.quarantine
        ⟨"MONOTONICITY_FAILURE", branch.branch_id,
         branch.events[k].monotonic_counter,
         some branch.events[k].state_hash, now⟩) := by
  obtain ⟨events, bid⟩ := branch
  have hcc := chainCheckFrom_eq_none_of_valid events
    (fun e he => verify_of_kinds e (hsig e he).1 (hsig e he).2) hchain
  have hm := monotonicityCheck_first head.height events 0 k hk
    (by simpa using hdev) (fun j hj hjk => by simpa using hmin j hj hjk)
  cases events with
  | nil => exact absurd h0 (by simp)
  | cons e rest =>
    simp only [List.getElem_cons_zero] at hfirst hc1
    simp [MergeOperator.merge, hcc, hfirst, hc1, hm]

/-- C5.  False-zero fork rejection: a structurally valid non-empty
branch whose first event does not chain from the head and whose first
counter is at or below the head's height is quarantined as
`FALSE_ZERO_FORK_DETECTED`, attributed to the first event. -/
theorem merge_false_zero_fork
    (branch : BranchChain) (head : LedgerHead) (now : String)
    (h0 : 0 < branch.events.length)
    (hsig : ∀ e ∈ branch.events,
      AttestationType.SHA256 ∈ e.signatures.map Prod.fst ∧
      AttestationType.ML_DSA_65 ∈ e.signatures.map Prod.fst)
    (hchain : ∀ i, (hi : i < branch.events.length) → 0 < i →
      branch.events[i].prev_hash = branch.events[i - 1].state_hash)
    (hfirst : branch.events[0].prev_hash ≠ head.head_hash)
    (hle : branch.events[0].monotonic_counter ≤ head.height) :
    MergeOperator.merge branch head now =
      (MergeOutcome.QUARANTINE, MergeArtifact.quarantine
        ⟨"FALSE_ZERO_FORK_DETECTED", branch.branch_id,
         branch.events[0].monotonic_counter,
         some branch.events[0].state_hash, now⟩) := by
  obtain ⟨events, bid⟩ := branch
  have hcc := chainCheckFrom_eq_none_of_valid events
    (fun e he => verify_of_kinds e (hsig e he).1 (hsig e he).2) hchain
  cases events with
  | nil => exact absurd h0 (by simp)
  | cons e rest =>
    simp only [List.getElem_cons_zero] at hfirst hle ⊢
    simp [MergeOperator.merge, hcc, hfirst, hle]

/-- C6.  Height-mismatch anomaly: a structurally valid non-empty branch
whose first event chains from the head's hash but whose first counter is
not `head.height + 1` is quarantined as
`HEIGHT_MISMATCH_DESPITE_HASH_MATCH`, attributed to the first event. -/
theorem merge_height_mismatch
    (branch : BranchChain) (head : LedgerHead) (now : String)
    (h0 : 0 < branch.events.length)
    (hsig : ∀ e ∈ branch.events,
      AttestationType.SHA256 ∈ e.signatures.map Prod.fst ∧
      AttestationType.ML_DSA_65 ∈ e.signatures.map Prod.fst)
    (hchain : ∀ i, (hi : i < branch.events.length) → 0 < i →
      branch.events[i].prev_hash = branch.events[i - 1].state_hash)
    (hfirst : branch.events[0].prev_hash = head.head_hash)
    (hcount : branch.events[0].monotonic_counter ≠ head.height + 1) :
    MergeOperator.merge branch head now =
      (MergeOutcome.QUARANTINE, MergeArtifact.quarantine
        ⟨"HEIGHT_MISMATCH_DESPITE_HASH_MATCH", branch.branch_id,
         branch.events[0].monotonic_counter,
         some branch.events[0].state_hash, now⟩) := by
  obtain ⟨events, bid⟩ := branch
  have hcc := chainCheckFrom_eq_none_of_valid events
    (fun e he => verify_of_kinds e (hsig e he).1 (hsig e he).2) hchain
  cases events with
  | nil => exact absurd h0 (by simp)
  | cons e rest =>
    simp only [List.getElem_cons_zero] at hfirst hcount ⊢
    simp [MergeOperator.merge, hcc, hfirst, hcount]

/-- Agreement of two quarantine records on everything except the
timestamp. -/
def recordsAgree (q1 q2 : QuarantineRecord) : Prop :=
  q1.reason_code = q2.reason_code ∧ q1.branch_id = q2.branch_id ∧
  q1.failed_at_height = q2.failed_at_height ∧
  q1.culprit_event_hash = q2.culprit_event_hash

/-- Agreement of two merge artifacts: same shape, and quarantine
records equal up to timestamp. -/
def artifactsAgree : MergeArtifact → MergeArtifact → Prop
  | MergeArtifact.none, MergeArtifact.none => True
  | MergeArtifact.quarantine q1, MergeArtifact.quarantine q2 => recordsAgree q1 q2
  | MergeArtifact.rebase r1, MergeArtifact.rebase r2 => r1 = r2
  | _, _ => False

/-- C7.  Determinism: two invocations of `merge` on equal inputs (only
the wall-clock reading may differ) return the same outcome, and any
quarantine records agree on `reason_code`, `branch_id`,
`failed_at_height` and `culprit_event_hash`. -/
theorem merge_deterministic (branch : BranchChain) (head : LedgerHead) (t1 t2 : String) :
    (MergeOperator.merge branch head t1).1 = (MergeOperator.merge branch head t2).1 ∧
    artifactsAgree (MergeOperator.merge branch head t1).2
      (MergeOperator.merge branch head t2).2 := by
  obtain ⟨events, bid⟩ := branch
  cases events with
  | nil => simp [MergeOperator.merge, artifactsAgree, recordsAgree]
  | cons e rest =>
    simp only [MergeOperator.merge]
    cases hcc : chainCheckFrom Option.none (e :: rest) with
    | some pr =>
      obtain ⟨k, ev⟩ := pr
      cases k <;> simp [artifactsAgree, recordsAgree]
    | none =>
      by_cases h1 : e.prev_hash = head.head_hash
      · by_cases h2 : e.monotonic_counter = head.height + 1
        · cases hm : monotonicityCheck head.height 0 (e :: rest) with
          | some ev => simp [h1, h2, hm, artifactsAgree, recordsAgree]
          | none => simp [h1, h2, hm, artifactsAgree]
        · simp [h1, h2, artifactsAgree, recordsAgree]
      · by_cases h3 : e.monotonic_counter ≤ head.height
        · simp [h1, h3, artifactsAgree, recordsAgree]
        · simp [h1, h3, artifactsAgree, recordsAgree]

/-- A quarantine record attributed to an event of the branch satisfies
the well-formedness conjuncts that do not mention `branch_id`. -/
lemma quarantine_wf_of_event (q : QuarantineRecord) (head : LedgerHead)
    (events : List BranchEvent) (ev : BranchEvent) (hmem : ev ∈ events)
    (hreason : ¬ q.reason_code = "EMPTY_BRANCH")
    (hculprit : q.culprit_event_hash = some ev.state_hash)
    (hheight : q.failed_at_height = ev.monotonic_counter) :
    (q.culprit_event_hash = Option.none ↔ q.reason_code = "EMPTY_BRANCH") ∧
    (events = [] → q.reason_code = "EMPTY_BRANCH" ∧ q.failed_at_height = head.height) ∧
    (∀ s, q.culprit_event_hash = some s →
      ∃ e ∈ events, s = e.state_hash ∧ q.failed_at_height = e.monotonic_counter) := by
  refine ⟨?_, ?_, ?_⟩
  · constructor
    · intro hcon
      rw [hculprit] at hcon
      exact absurd hcon (by simp)
    · intro hcon
      exact absurd hcon hreason
  · intro hnil
    rw [hnil] at hmem
    exact absurd hmem (by simp)
  · intro s hs
    rw [hculprit] at hs
    exact ⟨ev, hmem, (Option.some.inj hs).symm, hheight⟩

/-- C8.  Quarantine record well-formedness: every record returned by
`merge` carries the branch's id; its culprit hash is absent exactly for
`EMPTY_BRANCH` (the empty branch yields `EMPTY_BRANCH` at the head's
height); and a present culprit hash is the `state_hash` of some event of
the branch, with `failed_at_height` that same event's counter. -/
theorem merge_quarantine_record_wellformed
    (branch : BranchChain) (head : LedgerHead) (now : String) (q : QuarantineRecord)
    (hq : (MergeOperator.merge branch head now).2 = MergeArtifact.quarantine q) :
    q.branch_id = branch.branch_id ∧
    (q.culprit_event_hash = Option.none ↔ q.reason_code = "EMPTY_BRANCH") ∧
    (branch.events = [] →
      q.reason_code = "EMPTY_BRANCH" ∧ q.failed_at_height = head.height) ∧
    (∀ s, q.culprit_event_hash = some s →
      ∃ e ∈ branch.events, s = e.state_hash ∧ q.failed_at_height = e.monotonic_counter) := by
  obtain ⟨events, bid⟩ := branch
  cases events with
  | nil =>
    simp only [MergeOperator.merge, MergeArtifact.quarantine.injEq] at hq
    subst hq
    exact ⟨rfl, ⟨fun _ => rfl, fun _ => rfl⟩, fun _ => ⟨rfl, rfl⟩, fun s hs => nomatch hs⟩
  | cons e rest =>
    simp only [MergeOperator.merge] at hq
    cases hcc : chainCheckFrom Option.none (e :: rest) with
    | some pr =>
      obtain ⟨k, ev⟩ := pr
      have hmem := chainCheckFrom_mem (e :: rest) Option.none k ev hcc
      rw [hcc] at hq
      cases k with
      | missingSig =>
        simp only [MergeArtifact.quarantine.injEq] at hq
        subst hq
        exact ⟨rfl, quarantine_wf_of_event _ head _ ev hmem (by simp) rfl rfl⟩
      | brokenLink =>
        simp only [MergeArtifact.quarantine.injEq] at hq
        subst hq
        exact ⟨rfl, quarantine_wf_of_event _ head _ ev hmem (by simp) rfl rfl⟩
    | none =>
      rw [hcc] at hq
      by_cases h1 : e.prev_hash = head.head_hash
      · by_cases h2 : e.monotonic_counter = head.height + 1
        · cases hm : monotonicityCheck head.height 0 (e :: rest) with
          | some ev =>
            have hmem := monotonicityCheck_mem head.height (e :: rest) 0 ev hm
            simp only [if_pos h1, if_pos h2, hm, MergeArtifact.quarantine.injEq] at hq
            subst hq
            exact ⟨rfl, quarantine_wf_of_event _ head _ ev hmem (by simp) rfl rfl⟩
          | none =>
            simp only [if_pos h1, if_pos h2, hm] at hq
            exact nomatch hq
        · simp only [if_pos h1, if_neg h2, MergeArtifact.quarantine.injEq] at hq
          subst hq
          exact ⟨rfl, quarantine_wf_of_event _ head _ e
            (List.mem_cons_self e rest) (by simp) rfl rfl⟩
      · by_cases h3 : e.monotonic_counter ≤ head.height
        · simp only [if_neg h1, if_pos h3, MergeArtifact.quarantine.injEq] at hq
          subst hq
          exact ⟨rfl, quarantine_wf_of_event _ head _ e
            (List.mem_cons_self e rest) (by simp) rfl rfl⟩
        · simp only [if_neg h1, if_neg h3, MergeArtifact.quarantine.injEq] at hq
          subst hq
          exact ⟨rfl, quarantine_wf_of_event _ head _ e
            (List.mem_cons_self e rest) (by simp) rfl rfl⟩

lemma collapse_head (d : Char) (l : List Char) :
    (collapseUnderscores (d :: l)).head? = some d := by
  induction l generalizing d with
  | nil => rfl
  | cons e t ih =>
    by_cases h : d = underscore ∧ e = underscore
    · have hr : collapseUnderscores (d :: e :: t) = collapseUnderscores (e :: t) := by
        simp [collapseUnderscores, h]
      rw [hr, ih e, h.1, h.2]
    · have hr : collapseUnderscores (d :: e :: t) = d :: collapseUnderscores (e :: t) := by
        simp [collapseUnderscores, h]
      rw [hr]
      rfl

lemma noAdj_tail (c : Char) (l : List Char)
    (h : noAdjacentUnderscores (c :: l) = true) : noAdjacentUnderscores l = true := by
  cases l with
  | nil => rfl
  | cons d t =>
    simp only [noAdjacentUnderscores, Bool.and_eq_true] at h
    exact h.2

/-- After collapsing, no two underscores are adjacent. -/
lemma collapse_noAdj (l : List Char) :
    noAdjacentUnderscores (collapseUnderscores l) = true := by
  induction l with
  | nil => rfl
  | cons c t ih =>
    cases t with
    | nil => rfl
    | cons d t2 =>
      by_cases h : c = underscore ∧ d = underscore
      · have hr : collapseUnderscores (c :: d :: t2) = collapseUnderscores (d :: t2) := by
          simp [collapseUnderscores, h]
        rw [hr]
        exact ih
      · have hr : collapseUnderscores (c :: d :: t2) = c :: collapseUnderscores (d :: t2) := by
          simp [collapseUnderscores, h]
        rw [hr]
        cases hx : collapseUnderscores (d :: t2) with
        | nil => rfl
        | cons x xs =>
          have hxd : x = d := by
            have hh := collapse_head d t2
            rw [hx] at hh
            exact Option.some.inj hh
          subst hxd
          rw [hx] at ih
          simp only [noAdjacentUnderscores, Bool.and_eq_true]
          refine ⟨?_, ih⟩
          simpa using not_and_or.mp h

lemma noAdj_stripLeading (l : List Char) (h : noAdjacentUnderscores l = true) :
    noAdjacentUnderscores (stripLeading l) = true := by
  induction l with
  | nil => rfl
  | cons c t ih =>
    unfold stripLeading
    rw [List.dropWhile_cons]
    by_cases hc : c = underscore
    · rw [if_pos (by simp [hc])]
      simpa [stripLeading] using ih (noAdj_tail c t h)
    · rw [if_neg (by simp [hc])]
      exact h

lemma stripLeading_head (l : List Char) :
    ∀ c, (stripLeading l).head? = some c → ¬ c = underscore := by
  induction l with
  | nil => intro c h; cases h
  | cons a t ih =>
    intro c h
    unfold stripLeading at h
    rw [List.dropWhile_cons] at h
    by_cases ha : a = underscore
    · rw [if_pos (by simp [ha])] at h
      exact ih c (by simpa [stripLeading] using h)
    · rw [if_neg (by simp [ha])] at h
      rw [List.head?_cons] at h
      rw [← Option.some.inj h]
      exact ha

lemma stripLeading_mem (l : List Char) : ∀ c ∈ stripLeading l, c ∈ l := by
  induction l with
  | nil => simp [stripLeading]
  | cons a t ih =>
    intro c hc
    unfold stripLeading at hc
    rw [List.dropWhile_cons] at hc
    by_cases ha : a = underscore
    · rw [if_pos (by simp [ha])] at hc
      exact List.mem_cons_of_mem a (ih c (by simpa [stripLeading] using hc))
    · rw [if_neg (by simp [ha])] at hc
      exact hc

lemma stripTrailing_head (c : Char) (t : List Char) :
    stripTrailing (c :: t) = [] ∨ (stripTrailing (c :: t)).head? = some c := by
  cases h : stripTrailing t with
  | nil =>
    by_cases hc : c = underscore
    · exact Or.inl (by simp [stripTrailing, h, hc])
    · exact Or.inr (by simp [stripTrailing, h, hc])
  | cons d t2 => exact Or.inr (by simp [stripTrailing, h])

lemma noAdj_stripTrailing (l : List Char) (h : noAdjacentUnderscores l = true) :
    noAdjacentUnderscores (stripTrailing l) = true := by
  induction l with
  | nil => rfl
  | cons c t ih =>
    have iht := ih (noAdj_tail c t h)
    cases hx : stripTrailing t with
    | nil =>
      by_cases hc : c = underscore
      · rw [show stripTrailing (c :: t) = [] from by simp [stripTrailing, hx, hc]]
        rfl
      · rw [show stripTrailing (c :: t) = [c] from by simp [stripTrailing, hx, hc]]
        rfl
    | cons d t2 =>
      rw [show stripTrailing (c :: t) = c :: d :: t2 from by simp [stripTrailing, hx]]
      rw [hx] at iht
      cases t with
      | nil => cases hx
      | cons a t3 =>
        have hda : d = a := by
          rcases stripTrailing_head a t3 with h1 | h2
          · rw [h1] at hx
            cases hx
          · rw [hx] at h2
            exact Option.some.inj h2
        subst hda
        simp only [noAdjacentUnderscores, Bool.and_eq_true]
        refine ⟨?_, iht⟩
        simp only [noAdjacentUnderscores, Bool.and_eq_true] at h
        simpa using h.1

lemma stripTrailing_getLast (l : List Char) :
    ∀ c, (stripTrailing l).getLast? = some c → ¬ c = underscore := by
  induction l with
  | nil => intro c h; cases h
  | cons a t ih =>
    intro c h
    cases hx : stripTrailing t with
    | nil =>
      by_cases ha : a = underscore
      · rw [show stripTrailing (a :: t) = [] from by simp [stripTrailing, hx, ha]] at h
        cases h
      · rw [show stripTrailing (a :: t) = [a] from by simp [stripTrailing, hx, ha]] at h
        simp only [List.getLast?_singleton, Option.some.injEq] at h
        rw [← h]
        exact ha
    | cons d t2 =>
      rw [show stripTrailing (a :: t) = a :: d :: t2 from by simp [stripTrailing, hx]] at h
      rw [List.getLast?_cons_cons] at h
      rw [← hx] at h
      exact ih c h

lemma stripTrailing_mem (l : List Char) : ∀ c ∈ stripTrailing l, c ∈ l := by
  induction l with
  | nil => simp [stripTrailing]
  | cons a t ih =>
    intro c hc
    cases hx : stripTrailing t with
    | nil =>
      by_cases ha : a = underscore
      · rw [show stripTrailing (a :: t) = [] from by simp [stripTrailing, hx, ha]] at hc
        cases hc
      · rw [show stripTrailing (a :: t) = [a] from by simp [stripTrailing, hx, ha]] at hc
        rw [List.mem_singleton.mp hc]
        exact List.mem_cons_self a t
    | cons d t2 =>
      rw [show stripTrailing (a :: t) = a :: d :: t2 from by simp [stripTrailing, hx]] at hc
      rcases List.mem_cons.mp hc with h1 | h2
      · rw [h1]
        exact List.mem_cons_self a t
      · rw [← hx] at h2
        exact List.mem_cons_of_mem a (ih c h2)

lemma collapse_mem (l : List Char) : ∀ c ∈ collapseUnderscores l, c ∈ l := by
  induction l with
  | nil => simp [collapseUnderscores]
  | cons a t ih =>
    cases t with
    | nil => simp [collapseUnderscores]
    | cons b t2 =>
      intro c hc
      by_cases h : a = underscore ∧ b = underscore
      · rw [show collapseUnderscores (a :: b :: t2) = collapseUnderscores (b :: t2) from by
          simp [collapseUnderscores, h]] at hc
        exact List.mem_cons_of_mem a (ih c hc)
      · rw [show collapseUnderscores (a :: b :: t2) = a :: collapseUnderscores (b :: t2) from by
          simp [collapseUnderscores, h]] at hc
        rcases List.mem_cons.mp hc with h1 | h2
        · rw [h1]
          exact List.mem_cons_self a _
        · exact List.mem_cons_of_mem a (ih c h2)

lemma replaceUnsafe_safe (l : List Char) : ∀ c ∈ replaceUnsafe l, isSafeChar c = true := by
  intro c hc
  rcases List.mem_map.mp hc with ⟨a, _, ha⟩
  by_cases h : isSafeChar a = true
  · rw [← ha, if_pos h]
    exact h
  · rw [← ha, if_neg h]
    decide

/-- C9.  Identifier sanitization contract: `sanitize_job_id` returns
only characters from `[A-Za-z0-9_-]`, with repeated separators
(underscores, the sanitizer's replacement separator) collapsed to one
and leading/trailing separators stripped; and when the sanitized result
is empty the quarantine sealing path substitutes the fixed fallback
token `"UNKNOWN_BRANCH"` before the file name is constructed. -/
theorem sanitize_job_id_contract (s : String) :
    (sanitize_job_id s).data.all isSafeChar = true ∧
    noAdjacentUnderscores (sanitize_job_id s).data = true ∧
    (sanitize_job_id s).data.head? ≠ some underscore ∧
    (sanitize_job_id s).data.getLast? ≠ some underscore ∧
    (sanitize_job_id s = "" → quarantineSealId s = "UNKNOWN_BRANCH") := by
  refine ⟨?_, ?_, ?_, ?_, ?_⟩
  · rw [List.all_eq_true]
    intro c hc
    exact replaceUnsafe_safe s.data c
      (collapse_mem _ c (stripLeading_mem _ c (stripTrailing_mem _ c hc)))
  · exact noAdj_stripTrailing _ (noAdj_stripLeading _ (collapse_noAdj _))
  · intro hcon
    simp only [sanitize_job_id] at hcon
    cases hml : stripLeading (collapseUnderscores (replaceUnsafe s.data)) with
    | nil =>
      rw [hml] at hcon
      simp [stripTrailing] at hcon
    | cons a t =>
      rw [hml] at hcon
      rcases stripTrailing_head a t with h1 | h2
      · rw [h1] at hcon
        simp at hcon
      · rw [h2] at hcon
        have ha := stripLeading_head (collapseUnderscores (replaceUnsafe s.data)) a
          (by rw [hml]; rfl)
        exact ha (Option.some.inj hcon)
  · intro hcon
    simp only [sanitize_job_id] at hcon
    exact stripTrailing_getLast _ underscore hcon rfl
  · intro h
    simp [quarantineSealId, h]

/-- Key-set equality of two signature maps: what `verify_signatures`
reads is invariant under it. -/
def keysMatch (e1 e2 : BranchEvent) : Prop :=
  ∀ k : String, k ∈ e1.signatures.map Prod.fst ↔ k ∈ e2.signatures.map Prod.fst

/-- Two events equal in every field except (possibly) the string values
stored in their signatures maps, whose key sets coincide. -/
def sameUpToSignatureValues (e1 e2 : BranchEvent) : Prop :=
  e1.prev_hash = e2.prev_hash ∧ e1.state_hash = e2.state_hash ∧
  e1.payload_hash = e2.payload_hash ∧ e1.timestamp_utc = e2.timestamp_utc ∧
  e1.monotonic_counter = e2.monotonic_counter ∧ keysMatch e1 e2

lemma verify_signatures_congr (e1 e2 : BranchEvent) (h : sameUpToSignatureValues e1 e2) :
    e1.verify_signatures = e2.verify_signatures := by
  obtain ⟨-, -, -, -, -, hk⟩ := h
  unfold BranchEvent.verify_signatures
  rw [decide_eq_decide.mpr (hk AttestationType.SHA256),
    decide_eq_decide.mpr (hk AttestationType.ML_DSA_65)]

/-- The first loop of `merge` is insensitive to signature values: on
two related branches it fails at the same position with the same kind,
or passes on both. -/
lemma chainCheckFrom_congr (l1 l2 : List BranchEvent)
    (hrel : List.Forall₂ sameUpToSignatureValues l1 l2) :
    ∀ p1 p2 : Option BranchEvent,
      ((p1 = Option.none ∧ p2 = Option.none) ∨
        (∃ a b, p1 = some a ∧ p2 = some b ∧ a.state_hash = b.state_hash)) →
      (chainCheckFrom p1 l1 = Option.none ∧ chainCheckFrom p2 l2 = Option.none) ∨
        (∃ k e1 e2, chainCheckFrom p1 l1 = some (k, e1) ∧
          chainCheckFrom p2 l2 = some (k, e2) ∧ sameUpToSignatureValues e1 e2) := by
  induction hrel with
  | nil =>
    intro p1 p2 _
    exact Or.inl ⟨rfl, rfl⟩
  | @cons a1 a2 t1 t2 he ht ih =>
    intro p1 p2 hp
    have hveq := verify_signatures_congr a1 a2 he
    by_cases hv : a1.verify_signatures = false
    · refine Or.inr ⟨ChainFailure.missingSig, a1, a2, ?_, ?_, he⟩
      · simp [chainCheckFrom, hv]
      · simp [chainCheckFrom, ← hveq, hv]
    · have hv1 : a1.verify_signatures = true := by
        revert hv
        cases a1.verify_signatures <;> simp
      have hv2 : a2.verify_signatures = true := by rw [← hveq]; exact hv1
      have hrec := ih (some a1) (some a2) (Or.inr ⟨a1, a2, rfl, rfl, he.2.1⟩)
      rcases hp with ⟨hp1, hp2⟩ | ⟨a, b, hp1, hp2, hab⟩
      · subst hp1
        subst hp2
        have e1 : chainCheckFrom Option.none (a1 :: t1) = chainCheckFrom (some a1) t1 := by
          simp [chainCheckFrom, hv1]
        have e2 : chainCheckFrom Option.none (a2 :: t2) = chainCheckFrom (some a2) t2 := by
          simp [chainCheckFrom, hv2]
        rw [e1, e2]
        exact hrec
      · subst hp1
        subst hp2
        by_cases hc : a1.prev_hash = a.state_hash
        · have hc2 : a2.prev_hash = b.state_hash := by rw [← he.1, ← hab]; exact hc
          have e1 : chainCheckFrom (some a) (a1 :: t1) = chainCheckFrom (some a1) t1 := by
            simp [chainCheckFrom, hv1, hc]
          have e2 : chainCheckFrom (some b) (a2 :: t2) = chainCheckFrom (some a2) t2 := by
            simp [chainCheckFrom, hv2, hc2]
          rw [e1, e2]
          exact hrec
        · have hc2 : ¬ a2.prev_hash = b.state_hash := by rw [← he.1, ← hab]; exact hc
          refine Or.inr ⟨ChainFailure.brokenLink, a1, a2, ?_, ?_, he⟩
          · simp [chainCheckFrom, hv1, hc]
          · simp [chainCheckFrom, hv2, hc2]

/-- The second loop of `merge` is insensitive to signature values. -/
lemma monotonicityCheck_congr (base : Nat) (l1 l2 : List BranchEvent)
    (hrel : List.Forall₂ sameUpToSignatureValues l1 l2) :
    ∀ i : Nat,
      (monotonicityCheck base i l1 = Option.none ∧
        monotonicityCheck base i l2 = Option.none) ∨
      (∃ e1 e2, monotonicityCheck base i l1 = some e1 ∧
        monotonicityCheck base i l2 = some e2 ∧ sameUpToSignatureValues e1 e2) := by
  induction hrel with
  | nil =>
    intro i
    exact Or.inl ⟨rfl, rfl⟩
  | @cons a1 a2 t1 t2 he ht ih =>
    intro i
    by_cases hc : a1.monotonic_counter = base + 1 + i
    · have hc2 : a2.monotonic_counter = base + 1 + i := by
        rw [← he.2.2.2.2.1]
        exact hc
      have e1 : monotonicityCheck base i (a1 :: t1) = monotonicityCheck base (i + 1) t1 := by
        simp [monotonicityCheck, hc]
      have e2 : monotonicityCheck base i (a2 :: t2) = monotonicityCheck base (i + 1) t2 := by
        simp [monotonicityCheck, hc2]
      rw [e1, e2]
      exact ih (i + 1)
    · have hc2 : ¬ a2.monotonic_counter = base + 1 + i := by
        rw [← he.2.2.2.2.1]
        exact hc
      refine Or.inr ⟨a1, a2, ?_, ?_, he⟩
      · simp [monotonicityCheck, hc]
      · simp [monotonicityCheck, hc2]

/-- C10.  Signature values are ignored: on two branches with the same
`branch_id` whose events agree on every field except the stored
signature strings (same key sets), `merge` returns the same outcome and
any quarantine records agree on `reason_code`, `branch_id`,
`failed_at_height` and `culprit_event_hash`. -/
theorem merge_ignores_signature_values
    (b1 b2 : BranchChain) (head : LedgerHead) (now : String)
    (hid : b1.branch_id = b2.branch_id)
    (hrel : List.Forall₂ sameUpToSignatureValues b1.events b2.events) :
    (MergeOperator.merge b1 head now).1 = (MergeOperator.merge b2 head now).1 ∧
    artifactsAgree (MergeOperator.merge b1 head now).2
      (MergeOperator.merge b2 head now).2 := by
  obtain ⟨events1, bid1⟩ := b1
  obtain ⟨events2, bid2⟩ := b2
  have hid2 : bid1 = bid2 := hid
  subst hid2
  cases hrel with
  | nil => simp [MergeOperator.merge, artifactsAgree, recordsAgree]
  | @cons a1 a2 t1 t2 he ht =>
    have hcfull : List.Forall₂ sameUpToSignatureValues (a1 :: t1) (a2 :: t2) :=
      List.Forall₂.cons he ht
    simp only [MergeOperator.merge]
    rcases chainCheckFrom_congr (a1 :: t1) (a2 :: t2) hcfull Option.none Option.none
        (Or.inl ⟨rfl, rfl⟩) with ⟨hc1, hc2⟩ | ⟨k, e1, e2, hc1, hc2, hee⟩
    · by_cases h1 : a1.prev_hash = head.head_hash
      · have h1b : a2.prev_hash = head.head_hash := by rw [← he.1]; exact h1
        by_cases h2 : a1.monotonic_counter = head.height + 1
        · have h2b : a2.monotonic_counter = head.height + 1 := by
            rw [← he.2.2.2.2.1]
            exact h2
          rcases monotonicityCheck_congr head.height (a1 :: t1) (a2 :: t2) hcfull 0 with
            ⟨hm1, hm2⟩ | ⟨f1, f2, hm1, hm2, hf⟩
          · simp [hc1, hc2, h1, h1b, h2, h2b, hm1, hm2, artifactsAgree]
          · simp [hc1, hc2, h1, h1b, h2, h2b, hm1, hm2, artifactsAgree, recordsAgree,
              hf.2.1, hf.2.2.2.2.1]
        · have h2b : ¬ a2.monotonic_counter = head.height + 1 := by
            rw [← he.2.2.2.2.1]
            exact h2
          simp [hc1, hc2, h1, h1b, h2, h2b, artifactsAgree, recordsAgree,
            he.2.1, he.2.2.2.2.1]
      · have h1b : ¬ a2.prev_hash = head.head_hash := by rw [← he.1]; exact h1
        by_cases h3 : a1.monotonic_counter ≤ head.height
        · have h3b : a2.monotonic_counter ≤ head.height := by
            rw [← he.2.2.2.2.1]
            exact h3
          simp [hc1, hc2, h1, h1b, h3, h3b, artifactsAgree, recordsAgree,
            he.2.1, he.2.2.2.2.1]
        · have h3b : ¬ a2.monotonic_counter ≤ head.height := by
            rw [← he.2.2.2.2.1]
            exact h3
          simp [hc1, hc2, h1, h1b, h3, h3b, artifactsAgree, recordsAgree,
            he.2.1, he.2.2.2.2.1]
    · cases k with
      | missingSig =>
        simp [hc1, hc2, artifactsAgree, recordsAgree, hee.2.1, hee.2.2.2.2.1]
      | brokenLink =>
        simp [hc1, hc2, artifactsAgree, recordsAgree, hee.2.1, hee.2.2.2.2.1]

/-- Witness for C1: a clean two-event fast-forward branch on a head at
height 100. -/
theorem merge_fast_forward_exact_witness :
    MergeOperator.merge
      ⟨[⟨"hash-a", "hash-b", "p", "t", 101, [("SHA256", "s1"), ("ML-DSA-65", "m1")]⟩,
        ⟨"hash-b", "hash-c", "p", "t", 102, [("SHA256", "s2"), ("ML-DSA-65", "m2")]⟩],
       "branch-1"⟩ ⟨"hash-a", 100⟩ "2026-01-01" =
      (MergeOutcome.FAST_FORWARD_APPEND, MergeArtifact.none) :=
  merge_fast_forward_exact _ _ _ (by decide) (by decide) (by decide) (by decide) (by decide)

/-- Witness for C2: the second event is both missing the post-quantum
attestation kind and breaks continuity; the signature check wins. -/
theorem merge_first_failure_attribution_witness :
    MergeOperator.merge
      ⟨[⟨"hash-a", "hash-b", "p", "t", 101, [("SHA256", "s1"), ("ML-DSA-65", "m1")]⟩,
        ⟨"hash-z", "hash-d", "p", "t", 102, [("SHA256", "s2")]⟩],
       "branch-2"⟩ ⟨"hash-a", 100⟩ "2026-01-01" =
      (MergeOutcome.QUARANTINE, MergeArtifact.quarantine
        ⟨"MISSING_PQ_SIGNATURE", "branch-2", 102, some "hash-d", "2026-01-01"⟩) :=
  (merge_first_failure_attribution _ _ _ 1 (by decide) (by decide) (by decide)).trans
    (by decide)

/-- Witness for C3: a fully signed, internally chained branch starting
ahead of the head but not chaining from its hash is quarantined as
detached. -/
theorem merge_unimplemented_rebase_witness :
    MergeOperator.merge
      ⟨[⟨"hash-x", "hash-b", "p", "t", 105, [("SHA256", "s1"), ("ML-DSA-65", "m1")]⟩],
       "branch-3"⟩ ⟨"hash-a", 100⟩ "2026-01-01" =
      (MergeOutcome.QUARANTINE, MergeArtifact.quarantine
        ⟨"DETACHED_BRANCH_REBASE_REQUIRED", "branch-3", 105, some "hash-b",
         "2026-01-01"⟩) :=
  ((merge_unimplemented_rebase _ _ _).2 (by decide) (by decide) (by decide) (by decide)
    (by decide)).trans (by decide)

/-- Witness for C4: the second event chains correctly by hash but
repeats counter 101. -/
theorem merge_monotonicity_failure_witness :
    MergeOperator.merge
      ⟨[⟨"hash-a", "hash-b", "p", "t", 101, [("SHA256", "s1"), ("ML-DSA-65", "m1")]⟩,
        ⟨"hash-b", "hash-c", "p", "t", 101, [("SHA256", "s2"), ("ML-DSA-65", "m2")]⟩],
       "branch-4"⟩ ⟨"hash-a", 100⟩ "2026-01-01" =
      (MergeOutcome.QUARANTINE, MergeArtifact.quarantine
        ⟨"MONOTONICITY_FAILURE", "branch-4", 101, some "hash-c", "2026-01-01"⟩) :=
  (merge_monotonicity_failure _ _ _ 1 (by decide) (by decide) (by decide) (by decide)
    (by decide) (by decide) (by decide) (by decide)).trans (by decide)

/-- Witness for C5: one event with a foreign `prev_hash` claiming
counter 100 against a head at height 100. -/
theorem merge_false_zero_fork_witness :
    MergeOperator.merge
      ⟨[⟨"hash-x", "hash-b", "p", "t", 100, [("SHA256", "s1"), ("ML-DSA-65", "m1")]⟩],
       "branch-5"⟩ ⟨"hash-a", 100⟩ "2026-01-01" =
      (MergeOutcome.QUARANTINE, MergeArtifact.quarantine
        ⟨"FALSE_ZERO_FORK_DETECTED", "branch-5", 100, some "hash-b", "2026-01-01"⟩) :=
  (merge_false_zero_fork _ _ _ (by decide) (by decide) (by decide) (by decide)
    (by decide)).trans (by decide)

/-- Witness for C6: one event chaining from the head's hash but with
counter 102 instead of 101. -/
theorem merge_height_mismatch_witness :
    MergeOperator.merge
      ⟨[⟨"hash-a", "hash-b", "p", "t", 102, [("SHA256", "s1"), ("ML-DSA-65", "m1")]⟩],
       "branch-6"⟩ ⟨"hash-a", 100⟩ "2026-01-01" =
      (MergeOutcome.QUARANTINE, MergeArtifact.quarantine
        ⟨"HEIGHT_MISMATCH_DESPITE_HASH_MATCH", "branch-6", 102, some "hash-b",
         "2026-01-01"⟩) :=
  (merge_height_mismatch _ _ _ (by decide) (by decide) (by decide) (by decide)
    (by decide)).trans (by decide)

/-- Witness for C8: the record produced for an empty branch. -/
theorem merge_quarantine_record_wellformed_witness :
    (⟨"EMPTY_BRANCH", "branch-8", 100, Option.none, "2026-01-01"⟩ :
        QuarantineRecord).branch_id = "branch-8" ∧
    ((⟨"EMPTY_BRANCH", "branch-8", 100, Option.none, "2026-01-01"⟩ :
        QuarantineRecord).culprit_event_hash = Option.none ↔
      (⟨"EMPTY_BRANCH", "branch-8", 100, Option.none, "2026-01-01"⟩ :
        QuarantineRecord).reason_code = "EMPTY_BRANCH") := by
  have h := merge_quarantine_record_wellformed ⟨[], "branch-8"⟩ ⟨"hash-a", 100⟩
    "2026-01-01" ⟨"EMPTY_BRANCH", "branch-8", 100, Option.none, "2026-01-01"⟩ (by decide)
  exact ⟨h.1, h.2.1⟩

/-- Witness for C9: an all-unsafe identifier sanitizes to the empty
string, and the quarantine sealing path then substitutes the fixed
fallback token. -/
theorem sanitize_job_id_contract_witness :
    sanitize_job_id "!!!" = "" ∧ quarantineSealId "!!!" = "UNKNOWN_BRANCH" :=
  ⟨by decide, (sanitize_job_id_contract "!!!").2.2.2.2 (by decide)⟩

/-- Witness for C10: replacing both signature strings (one with the
empty string) changes neither the outcome nor the decision-relevant
record fields. -/
theorem merge_ignores_signature_values_witness :
    (MergeOperator.merge
        ⟨[⟨"hash-a", "hash-b", "p", "t", 101,
            [("SHA256", "good-sig"), ("ML-DSA-65", "good-sig")]⟩], "branch-10"⟩
        ⟨"hash-a", 100⟩ "2026-01-01").1 =
      (MergeOperator.merge
        ⟨[⟨"hash-a", "hash-b", "p", "t", 101,
            [("SHA256", ""), ("ML-DSA-65", "garbage")]⟩], "branch-10"⟩
        ⟨"hash-a", 100⟩ "2026-01-01").1 ∧
    artifactsAgree
      (MergeOperator.merge
        ⟨[⟨"hash-a", "hash-b", "p", "t", 101,
            [("SHA256", "good-sig"), ("ML-DSA-65", "good-sig")]⟩], "branch-10"⟩
        ⟨"hash-a", 100⟩ "2026-01-01").2
      (MergeOperator.merge
        ⟨[⟨"hash-a", "hash-b", "p", "t", 101,
            [("SHA256", ""), ("ML-DSA-65", "garbage")]⟩], "branch-10"⟩
        ⟨"hash-a", 100⟩ "2026-01-01").2 :=
  merge_ignores_signature_values _ _ _ _ rfl
    (List.Forall₂.cons
      (by unfold sameUpToSignatureValues keysMatch
          exact ⟨rfl, rfl, rfl, rfl, rfl, fun k => Iff.rfl⟩)
      List.Forall₂.nil)

end GeminiLedger
